import Mathlib

/-!
Verification of the review-scraping pipeline of
`web-scraping-product-reviews` against its specification.

The development shallowly embeds the three scrapers:
* `src/scrapers/google_play/google_play_mendi_reviews_scraper_WORLDWIDE.js`
  (per-country pagination, cross-region accumulation, `removeDuplicates`,
  date-descending sort, CSV/JSON serialization);
* `src/scrapers/apple_app_store/apple_app_store_mendi_reviews_scraper.js`
  (page-number pagination loop, canonical JSON mapping, file writes);
* `src/scrapers/zendesk/zendesk_tickets_scraper.js`
  (`ticketToRating`, `extractTicketText`, `convertTicketsToReviews`).

JavaScript conventions are modelled explicitly: a string field that may be
absent is a `String` where `""` plays the role of `undefined` (the two are
indistinguishable in every use the scripts make of them: truthiness tests
and `x || ""` defaulting); a numeric field that may be absent is an
`Option Int`, with `some 0` still falsy under `||`.
-/

namespace GooglePlay

/-- A raw Google Play review as consumed by the worldwide scraper:
`userName`, `text`, `date`, `score`, `helpfulCount`, reply fields, plus the
`country` tag the scraper adds.  `date` is kept as the raw string the
provider returned (the script compares dates only through `new Date`). -/
structure GReview where
  userName : String
  text : String
  date : String
  score : Int
  helpfulCount : Int
  replyDate : String
  replyText : String
  country : String
deriving DecidableEq, Repr

/-- The dedup key of `removeDuplicates`:
`` `${review.userName}_${review.text}_${review.date}` ``. -/
def dedupKey (r : GReview) : String :=
  r.userName ++ "_" ++ r.text ++ "_" ++ r.date

/-- The loop of `removeDuplicates`: `seen` is the JS `Set` of keys already
encountered (modelled as the list of its elements), `unique` is built by
pushing each review whose key is unseen. -/
def removeDupAux : List GReview → List String → List GReview
  | [], _ => []
  | r :: rest, seen =>
    if dedupKey r ∈ seen then removeDupAux rest seen
    else r :: removeDupAux rest (dedupKey r :: seen)

/-- `removeDuplicates(reviews)` from the worldwide scraper (lines 110-125). -/
def removeDuplicates (rs : List GReview) : List GReview :=
  removeDupAux rs []

/-- First-occurrence-per-key reference formulation: a review is kept iff no
review earlier in the input has the same `dedupKey`.  Used to state what
`removeDuplicates` computes in terms of the input sequence itself. -/
def keyDedupGo : List GReview → List GReview → List GReview
  | [], _ => []
  | r :: rest, earlier =>
    if earlier.any (fun p => dedupKey p = dedupKey r)
    then keyDedupGo rest (earlier ++ [r])
    else r :: keyDedupGo rest (earlier ++ [r])

/-- Reference dedup by key, over input prefixes. -/
def keyDedup (rs : List GReview) : List GReview :=
  keyDedupGo rs []

/-- The (author, body text, date) fingerprint of the spec. -/
def tripleKey (r : GReview) : String × String × String :=
  (r.userName, r.text, r.date)

/-- Modelled from the spec: deduplication that keeps exactly the first
occurrence of each (author, body text, date) triple, as §4.3 and the C1
claim describe it.  Compared against the source's `removeDuplicates`. -/
def tripleDedupGo : List GReview → List GReview → List GReview
  | [], _ => []
  | r :: rest, earlier =>
    if earlier.any (fun p => tripleKey p = tripleKey r)
    then tripleDedupGo rest (earlier ++ [r])
    else r :: tripleDedupGo rest (earlier ++ [r])

/-- Modelled from the spec: top-level triple-fingerprint dedup. -/
def tripleDedup (rs : List GReview) : List GReview :=
  tripleDedupGo rs []

theorem removeDupAux_sublist : ∀ (rs : List GReview) (seen : List String),
    (removeDupAux rs seen).Sublist rs := by
  intro rs
  induction rs with
  | nil => intro seen; simp [removeDupAux]
  | cons r rest ih =>
    intro seen
    by_cases h : dedupKey r ∈ seen
    · simp only [removeDupAux, if_pos h]
      exact (ih seen).trans (List.sublist_cons_self r rest)
    · simp only [removeDupAux, if_neg h]
      exact List.Sublist.cons₂ r (ih (dedupKey r :: seen))

theorem removeDupAux_key_not_seen : ∀ (rs : List GReview) (seen : List String)
    (r : GReview), r ∈ removeDupAux rs seen → dedupKey r ∉ seen := by
  intro rs
  induction rs with
  | nil => intro seen r hr; simp [removeDupAux] at hr
  | cons a rest ih =>
    intro seen r hr
    by_cases h : dedupKey a ∈ seen
    · simp only [removeDupAux, if_pos h] at hr
      exact ih seen r hr
    · simp only [removeDupAux, if_neg h] at hr
      rcases List.mem_cons.mp hr with hr | hr
      · subst hr; exact h
      · have := ih (dedupKey a :: seen) r hr
        intro hmem
        exact this (List.mem_cons_of_mem _ hmem)

theorem removeDupAux_keys_nodup : ∀ (rs : List GReview) (seen : List String),
    ((removeDupAux rs seen).map dedupKey).Nodup := by
  intro rs
  induction rs with
  | nil => intro seen; simp [removeDupAux]
  | cons a rest ih =>
    intro seen
    by_cases h : dedupKey a ∈ seen
    · simp only [removeDupAux, if_pos h]; exact ih seen
    · simp only [removeDupAux, if_neg h, List.map_cons, List.nodup_cons]
      refine ⟨?_, ih (dedupKey a :: seen)⟩
      intro hmem
      rcases List.mem_map.mp hmem with ⟨r, hr, hkey⟩
      have := removeDupAux_key_not_seen rest (dedupKey a :: seen) r hr
      exact this (by rw [hkey]; exact List.mem_cons_self _ _)

theorem removeDupAux_fixed : ∀ (rs : List GReview) (seen : List String),
    (∀ r ∈ rs, dedupKey r ∉ seen) → ((rs.map dedupKey).Nodup) →
    removeDupAux rs seen = rs := by
  intro rs
  induction rs with
  | nil => intro seen _ _; rfl
  | cons a rest ih =>
    intro seen hfresh hnodup
    have ha : dedupKey a ∉ seen := hfresh a (List.mem_cons_self _ _)
    simp only [removeDupAux, if_neg ha]
    congr 1
    apply ih
    · intro r hr
      simp only [List.mem_cons, not_or]
      constructor
      · intro hkey
        simp only [List.map_cons, List.nodup_cons] at hnodup
        exact hnodup.1 (hkey ▸ List.mem_map_of_mem dedupKey hr)
      · exact hfresh r (List.mem_cons_of_mem _ hr)
    · simp only [List.map_cons, List.nodup_cons] at hnodup
      exact hnodup.2

theorem removeDupAux_eq_keyDedupGo :
    ∀ (rs : List GReview) (seen : List String) (earlier : List GReview),
    (∀ k, k ∈ seen ↔ ∃ p ∈ earlier, dedupKey p = k) →
    removeDupAux rs seen = keyDedupGo rs earlier := by
  intro rs
  induction rs with
  | nil => intro seen earlier _; rfl
  | cons a rest ih =>
    intro seen earlier hinv
    have hcond : (dedupKey a ∈ seen) ↔
        (earlier.any (fun p => dedupKey p = dedupKey a) = true) := by
      rw [hinv]
      simp [List.any_eq_true]
    by_cases h : dedupKey a ∈ seen
    · rw [removeDupAux, if_pos h, keyDedupGo, if_pos (hcond.mp h)]
      apply ih
      intro k
      rw [hinv]
      constructor
      · rintro ⟨p, hp, hk⟩; exact ⟨p, List.mem_append_left _ hp, hk⟩
      · rintro ⟨p, hp, hk⟩
        rcases List.mem_append.mp hp with hp | hp
        · exact ⟨p, hp, hk⟩
        · simp only [List.mem_singleton] at hp
          subst hp
          subst hk
          exact (hinv (dedupKey p)).mp h
    · have h2 : ¬ (earlier.any (fun p => dedupKey p = dedupKey a) = true) :=
        fun hc => h (hcond.mpr hc)
      rw [removeDupAux, if_neg h, keyDedupGo, if_neg h2]
      congr 1
      apply ih
      intro k
      constructor
      · intro hk
        rcases List.mem_cons.mp hk with hk | hk
        · exact ⟨a, List.mem_append_right _ (List.mem_singleton_self a), hk.symm⟩
        · rcases (hinv k).mp hk with ⟨p, hp, hpk⟩
          exact ⟨p, List.mem_append_left _ hp, hpk⟩
      · rintro ⟨p, hp, hk⟩
        rcases List.mem_append.mp hp with hp | hp
        · exact List.mem_cons_of_mem _ ((hinv k).mpr ⟨p, hp, hk⟩)
        · simp only [List.mem_singleton] at hp
          subst hp
          subst hk
          exact List.mem_cons_self _ _

/-- The sort comparator `(a, b) => new Date(b.date) - new Date(a.date)`:
`a` is placed before `b` exactly when `b`'s date value is at most `a`'s,
i.e. the list becomes non-increasing in date.  `dv` is the valuation of
date strings that `new Date` performs (its millisecond timestamp); the
script's behaviour is uniform in it. -/
def dateDescRel (dv : String → Int) (a b : GReview) : Prop :=
  dv b.date ≤ dv a.date

instance (dv : String → Int) : DecidableRel (dateDescRel dv) :=
  fun a b => inferInstanceAs (Decidable (dv b.date ≤ dv a.date))

/-- `uniqueReviews.sort((a, b) => new Date(b.date) - new Date(a.date))`
(line 177): JavaScript's stable sort under the date-descending comparator,
modelled by the stable `insertionSort` under `dateDescRel`. -/
def sortByDateDesc (dv : String → Int) (rs : List GReview) : List GReview :=
  List.insertionSort (dateDescRel dv) rs

/-- `.replace(/"/g, '""')`: double every double-quote character. -/
def csvEscape (s : String) : String :=
  String.join (s.toList.map (fun c => if c = '"' then "\"\"" else String.singleton c))

/-- `r.score || ''` / `r.helpfulCount || ''`: a zero numeric field prints
as the empty string. -/
def numOrEmpty (n : Int) : String :=
  if n = 0 then "" else toString n

/-- Quote a field: `"` ++ escaped ++ `"`. -/
def q (s : String) : String := "\"" ++ s ++ "\""

/-- One CSV row of the worldwide scraper (lines 181-191): the eight
quoted fields joined by commas.  `country` defaults to `"unknown"` and
text fields are quote-escaped exactly as in the source. -/
def csvLine (r : GReview) : String :=
  q r.date ++ "," ++
  q (csvEscape (if r.country = "" then "unknown" else r.country)) ++ "," ++
  q (csvEscape r.userName) ++ "," ++
  q (numOrEmpty r.score) ++ "," ++
  q (csvEscape r.text) ++ "," ++
  q (numOrEmpty r.helpfulCount) ++ "," ++
  q r.replyDate ++ "," ++
  q (csvEscape r.replyText)

/-- The worldwide CSV header row (line 180). -/
def csvHeader : String :=
  "Date,Country,User Name,Score,Review Text,Helpful Count,Reply Date,Reply Text\n"

/-- The canonical JSON object the worldwide scraper emits per review
(lines 195-206), minus the run-dependent random `id`. -/
structure GCanon where
  author : String
  rating : Option Int
  review : String
  date : String
  helpful : Int
  reply_date : String
  reply_text : String
  platform : String
  country : String
deriving DecidableEq, Repr

/-- The JSON mapping of one review (lines 195-206): `||`-defaulting per
field; `rating: r.score || null` maps a zero score to `null`. -/
def gJsonObj (r : GReview) : GCanon :=
  { author := if r.userName = "" then "Anonymous" else r.userName
    rating := if r.score = 0 then none else some r.score
    review := r.text
    date := r.date
    helpful := r.helpfulCount
    reply_date := r.replyDate
    reply_text := r.replyText
    platform := "google_play"
    country := if r.country = "" then "unknown" else r.country }

/-- The serialization tail of `scrapeAllReviewsGlobal` (lines 172-206):
dedupe, sort by date descending, then build the CSV and JSON contents
from the sorted list. -/
def pipelineSorted (dv : String → Int) (reviews : List GReview) : List GReview :=
  sortByDateDesc dv (removeDuplicates reviews)

/-- The full CSV text written by the worldwide scraper. -/
def worldwideCsv (dv : String → Int) (reviews : List GReview) : String :=
  csvHeader ++ String.intercalate "\n" ((pipelineSorted dv reviews).map csvLine)

/-- The JSON array written by the worldwide scraper. -/
def worldwideJson (dv : String → Int) (reviews : List GReview) : List GCanon :=
  (pipelineSorted dv reviews).map gJsonObj

/-- One page of the Google Play provider as seen by the fetch loop:
the review batch and whether a `nextPaginationToken` came back. -/
structure GPage where
  reviews : List GReview
  nextToken : Bool

/-- `{...r, country: countryCode}` (lines 69-72). -/
def tagCountry (c : String) (r : GReview) : GReview :=
  { r with country := c }

/-- The body of `scrapeCountryReviews` (lines 46-106).  `src b` is the
provider's response to the request for batch `b` (`.error` models a
thrown `ProviderError`; the surrounding `try`/`catch` returns the
accumulated reviews).  The do-while continues while a token is present
and `batchCount < maxBatches`; a batch with fewer than 10 reviews breaks,
and an empty batch breaks.  Fuel `maxBatches + 1` dominates the loop
count, so the recursion is faithful to the source loop. -/
def gpGo (src : Nat → Except Unit GPage) (c : String) (maxBatches : Nat) :
    Nat → Nat → List GReview → List GReview
  | 0, _, acc => acc
  | fuel + 1, batch, acc =>
    match src batch with
    | .error _ => acc
    | .ok pg =>
      if pg.reviews.length > 0 then
        let acc' := acc ++ pg.reviews.map (tagCountry c)
        if pg.reviews.length < 10 then acc'
        else if pg.nextToken ∧ batch < maxBatches then gpGo src c maxBatches fuel (batch + 1) acc'
        else acc'
      else acc

/-- `scrapeCountryReviews(countryCode, maxBatches = 10)`. -/
def scrapeCountryReviews (src : Nat → Except Unit GPage) (c : String)
    (maxBatches : Nat) : List GReview :=
  gpGo src c maxBatches (maxBatches + 1) 1 []

/-- The region loop of `scrapeAllReviewsGlobal` (lines 139-165): each
country is fetched with the default `maxBatches = 10`; a non-empty result
is concatenated onto the global accumulator, an empty one is skipped. -/
def scrapeAllReviewsGlobal (src : String → Nat → Except Unit GPage)
    (countries : List String) : List GReview :=
  countries.foldl
    (fun acc c =>
      let cr := scrapeCountryReviews (src c) c 10
      if cr.length > 0 then acc ++ cr else acc)
    []

theorem scrapeAllReviewsGlobal_foldl :
    ∀ (src : String → Nat → Except Unit GPage) (countries : List String)
      (acc : List GReview),
    countries.foldl
      (fun acc c =>
        let cr := scrapeCountryReviews (src c) c 10
        if cr.length > 0 then acc ++ cr else acc)
      acc
    = acc ++ (countries.map (fun c => scrapeCountryReviews (src c) c 10)).flatten := by
  intro src countries
  induction countries with
  | nil => intro acc; simp
  | cons c rest ih =>
    intro acc
    simp only [List.foldl_cons, List.map_cons, List.flatten]
    by_cases h : (scrapeCountryReviews (src c) c 10).length > 0
    · rw [if_pos h, ih, List.append_assoc]
    · have hnil : scrapeCountryReviews (src c) c 10 = [] :=
        List.eq_nil_of_length_eq_zero (Nat.eq_zero_of_not_pos h)
      rw [if_neg h, ih, hnil]
      simp

/-- The worldwide accumulation is the concatenation of the per-country
fetch results, in the configured country order. -/
theorem scrapeAllReviewsGlobal_eq_join (src : String → Nat → Except Unit GPage)
    (countries : List String) :
    scrapeAllReviewsGlobal src countries
    = (countries.map (fun c => scrapeCountryReviews (src c) c 10)).flatten := by
  rw [scrapeAllReviewsGlobal, scrapeAllReviewsGlobal_foldl]
  simp

theorem gpGo_upto_error (src : Nat → Except Unit GPage) (c : String)
    (maxB : Nat) (rs : Nat → List GReview) :
    ∀ (j fuel batch : Nat) (acc : List GReview),
    (∀ i, batch ≤ i → i < batch + j → src i = .ok ⟨rs i, true⟩ ∧ 10 ≤ (rs i).length) →
    src (batch + j) = .error () →
    batch + j ≤ maxB →
    j + 1 ≤ fuel →
    gpGo src c maxB fuel batch acc
      = acc ++ ((List.range' batch j).map (fun i => (rs i).map (tagCountry c))).flatten := by
  intro j
  induction j with
  | zero =>
    intro fuel batch acc _ herr _ hfuel
    obtain ⟨f, rfl⟩ : ∃ f, fuel = f + 1 :=
      ⟨fuel - 1, (Nat.succ_pred_eq_of_pos hfuel).symm⟩
    simp only [Nat.add_zero] at herr
    simp [gpGo, herr]
  | succ j ih =>
    intro fuel batch acc hok herr hbound hfuel
    obtain ⟨f, rfl⟩ : ∃ f, fuel = f + 1 :=
      ⟨fuel - 1, (Nat.succ_pred_eq_of_pos (Nat.lt_of_lt_of_le (Nat.succ_pos _) hfuel)).symm⟩
    have hb : src batch = .ok ⟨rs batch, true⟩ ∧ 10 ≤ (rs batch).length :=
      hok batch (Nat.le_refl _) (Nat.lt_add_of_pos_right (Nat.succ_pos _))
    have hlen : (rs batch).length > 0 := Nat.lt_of_lt_of_le (by norm_num) hb.2
    have hnotshort : ¬ ((rs batch).length < 10) := Nat.not_lt.mpr hb.2
    have hbatch : batch < maxB := by omega
    rw [gpGo, hb.1]
    simp only [if_pos hlen, if_neg hnotshort]
    rw [if_pos (show True ∧ batch < maxB from ⟨trivial, hbatch⟩)]
    rw [ih f (batch + 1) (acc ++ (rs batch).map (tagCountry c))
      (fun i h1 h2 => hok i (Nat.le_of_succ_le h1) (by omega))
      (by rw [show batch + 1 + j = batch + (j + 1) by omega]; exact herr)
      (by omega) (by omega)]
    rw [List.range'_succ, List.map_cons, List.flatten_cons, List.append_assoc]

instance (dv : String → Int) : IsTotal GReview (dateDescRel dv) :=
  ⟨fun a b => le_total (dv b.date) (dv a.date)⟩

instance (dv : String → Int) : IsTrans GReview (dateDescRel dv) :=
  ⟨fun _ _ _ hab hbc => le_trans hbc hab⟩

/-- The spec's Alice example: identical (author, body, date), rating 4, region us. -/
def alice4us : GReview :=
  ⟨"Alice", "Great app", "2024-01-15", 4, 0, "", "", "us"⟩

/-- The spec's Alice example: identical (author, body, date), rating 5, region gb. -/
def alice5gb : GReview :=
  ⟨"Alice", "Great app", "2024-01-15", 5, 3, "", "", "gb"⟩

/-- Two reviews with distinct (author, body, date) triples whose
underscore-joined dedup keys coincide: `"a_b" + "_" + "c"` versus
`"a" + "_" + "b_c"`. -/
def collideA : GReview :=
  ⟨"a_b", "c", "2024-01-01", 4, 0, "", "", "us"⟩

/-- Second half of the colliding pair. -/
def collideB : GReview :=
  ⟨"a", "b_c", "2024-01-01", 5, 0, "", "", "gb"⟩

/-- C1 counterexample: `removeDuplicates` is not first-occurrence-per-triple.
`collideA` and `collideB` have different (author, body text, date) triples,
yet `removeDuplicates` merges them, because both have dedup key
`"a_b_c_2024-01-01"`; the spec-modelled triple dedup keeps both.  So a
record can be removed although no earlier record has the identical triple. -/
theorem dedupe_differs_from_triple_fingerprint :
    tripleKey collideA ≠ tripleKey collideB ∧
    removeDuplicates [collideA, collideB] = [collideA] ∧
    tripleDedup [collideA, collideB] = [collideA, collideB] ∧
    removeDuplicates [collideA, collideB] ≠ tripleDedup [collideA, collideB] := by
  refine ⟨by decide, by decide, by decide, by decide⟩

/-- C1 (amended): `removeDuplicates` returns exactly the first occurrence of
each underscore-joined key `userName + "_" + text + "_" + date` in input
order (a record is removed iff an earlier input record has the identical
key), and the key depends only on the (author, body text, date) triple, so
differences in rating, region, or helpful-count alone never prevent two
records from being merged.  (Distinct triples may still share a key when
the fields themselves contain underscores.) -/
theorem dedupe_first_per_key (rs : List GReview) :
    removeDuplicates rs = keyDedup rs ∧
    (∀ r1 r2 : GReview, r1.userName = r2.userName → r1.text = r2.text →
      r1.date = r2.date → dedupKey r1 = dedupKey r2) := by
  constructor
  · exact removeDupAux_eq_keyDedupGo rs [] [] (by simp)
  · intro r1 r2 h1 h2 h3
    simp [dedupKey, h1, h2, h3]

/-- C1 witness: on the spec's Alice pair (identical triple, different rating
and region) the theorem applies; the key coincidence makes the two merge,
keeping the first. -/
theorem dedupe_first_per_key_witness :
    removeDuplicates [alice4us, alice5gb] = keyDedup [alice4us, alice5gb] ∧
    dedupKey alice4us = dedupKey alice5gb ∧
    removeDuplicates [alice4us, alice5gb] = [alice4us] := by
  refine ⟨(dedupe_first_per_key [alice4us, alice5gb]).1,
    (dedupe_first_per_key [alice4us, alice5gb]).2 alice4us alice5gb rfl rfl rfl,
    by decide⟩

/-- C5: deduplication is idempotent (`dedupe (dedupe X) = dedupe X`) and
`dedupe X` is a sublist of `X`, i.e. an order-preserving subsequence. -/
theorem dedupe_idempotent_and_sublist (rs : List GReview) :
    removeDuplicates (removeDuplicates rs) = removeDuplicates rs ∧
    (removeDuplicates rs).Sublist rs := by
  constructor
  · exact removeDupAux_fixed (removeDupAux rs []) []
      (fun r _ => List.not_mem_nil _) (removeDupAux_keys_nodup rs [])
  · exact removeDupAux_sublist rs []

/-- C10: the worldwide pipeline sorts the deduplicated records by date in
descending order (each record's date value is at least the next one's, under
any date valuation `dv` such as the `new Date` timestamp), keeping exactly
the deduplicated records, and both the CSV body and the JSON array are built
from that sorted sequence, not from the accumulation order. -/
theorem outputs_sorted_date_descending (dv : String → Int) (reviews : List GReview) :
    (pipelineSorted dv reviews).Perm (removeDuplicates reviews) ∧
    (pipelineSorted dv reviews).Pairwise (fun a b => dv b.date ≤ dv a.date) ∧
    worldwideCsv dv reviews
      = csvHeader ++ String.intercalate "\n" ((pipelineSorted dv reviews).map csvLine) ∧
    worldwideJson dv reviews = (pipelineSorted dv reviews).map gJsonObj := by
  refine ⟨List.perm_insertionSort _ _, ?_, rfl, rfl⟩
  exact List.sorted_insertionSort (dateDescRel dv) (removeDuplicates reviews)

/-- C7: a provider failure at page `k` of one region's fetch ends only that
region: the pages accumulated before the failure (possibly none, when
`k = 1`) are kept as that region's contribution, and the global run is the
concatenation of the per-region results of the remaining regions,
unchanged. -/
theorem provider_error_isolated_to_region
    (src : String → Nat → Except Unit GPage) (pre post : List String)
    (c : String) (rs : Nat → List GReview) (k : Nat)
    (hk1 : 1 ≤ k) (hk10 : k ≤ 10)
    (hok : ∀ i, 1 ≤ i → i < k → src c i = .ok ⟨rs i, true⟩ ∧ 10 ≤ (rs i).length)
    (herr : src c k = .error ()) :
    scrapeAllReviewsGlobal src (pre ++ c :: post)
      = scrapeAllReviewsGlobal src pre
        ++ ((List.range' 1 (k - 1)).map (fun i => (rs i).map (tagCountry c))).flatten
        ++ scrapeAllReviewsGlobal src post := by
  have hc : scrapeCountryReviews (src c) c 10
      = ((List.range' 1 (k - 1)).map (fun i => (rs i).map (tagCountry c))).flatten := by
    have := gpGo_upto_error (src c) c 10 rs (k - 1) 11 1 []
      (fun i h1 h2 => hok i h1 (by omega))
      (by rw [show 1 + (k - 1) = k by omega]; exact herr)
      (by omega) (by omega)
    simpa [scrapeCountryReviews] using this
  rw [scrapeAllReviewsGlobal_eq_join, scrapeAllReviewsGlobal_eq_join,
    scrapeAllReviewsGlobal_eq_join, List.map_append, List.map_cons,
    List.flatten_append, List.flatten_cons, hc, List.append_assoc]

/-- A sample review returned by the mock provider in the C7 witness. -/
def sampleReview : GReview :=
  ⟨"Bob", "Nice", "2024-02-02", 5, 1, "", "", ""⟩

/-- A mock provider for the C7 witness: region "b" throws on its very first
page; regions "a" and "c" return one full page with no continuation token. -/
def witnessSrc : String → Nat → Except Unit GPage :=
  fun region _ =>
    if region = "b" then .error ()
    else .ok ⟨List.replicate 12 sampleReview, false⟩

/-- C7 witness: with regions `["a", "b", "c"]` and region "b" erroring on
page 1, the run keeps regions "a" and "c" untouched and region "b"
contributes zero records. -/
theorem provider_error_isolated_to_region_witness :
    scrapeAllReviewsGlobal witnessSrc ["a", "b", "c"]
      = scrapeAllReviewsGlobal witnessSrc ["a"]
        ++ ((List.range' 1 0).map
              (fun _ => (([] : List GReview)).map (tagCountry "b"))).flatten
        ++ scrapeAllReviewsGlobal witnessSrc ["c"] := by
  have h := provider_error_isolated_to_region witnessSrc ["a"] ["c"] "b"
    (fun _ => []) 1 (by decide) (by decide)
    (fun _i h1 h2 => absurd (Nat.lt_of_le_of_lt h1 h2) (Nat.lt_irrefl 1))
    rfl
  simpa using h

end GooglePlay

namespace AppleAppStore

/-- The pagination loop of `scrapeAllReviews` (lines 25-61), abstracted over
the provider: `pages i` is the review batch returned for page number `i`
(pages are numbered from 1).  The do-while body increments `pageCount`,
fetches, and on a non-empty batch appends it (a batch shorter than 50 only
logs a message — it does not break); on an empty batch it breaks; the
do-while condition is `pageCount < maxPages` (200 in the source).  The
result also reports the final `pageCount`, i.e. how many iterations ran.
Fuel `maxPages` dominates the number of continuations, making the
recursion faithful to the source loop. -/
def fetchGo (pages : Nat → List α) (maxPages : Nat) :
    Nat → Nat → List α → List α × Nat
  | 0, pc, acc => (acc, pc)
  | fuel + 1, pc, acc =>
    let pc' := pc + 1
    let revs := pages pc'
    if revs.length > 0 then
      if pc' < maxPages then fetchGo pages maxPages fuel pc' (acc ++ revs)
      else (acc ++ revs, pc')
    else (acc, pc')

/-- The full fetch phase of `scrapeAllReviews` with the source's page
ceiling of 200. -/
def scrapeAllFetch (pages : Nat → List α) : List α × Nat :=
  fetchGo pages 200 200 0 []

theorem fetchGo_const_nonempty (pages : Nat → List α) (maxPages : Nat)
    (hne : ∀ i, 1 ≤ i → i ≤ maxPages → (pages i).length > 0) :
    ∀ (fuel pc : Nat) (acc : List α), pc < maxPages → maxPages = pc + fuel →
    (fetchGo pages maxPages fuel pc acc).2 = maxPages := by
  intro fuel
  induction fuel with
  | zero => intro pc acc hpc heq; omega
  | succ f ih =>
    intro pc acc hpc heq
    have hpos : (pages (pc + 1)).length > 0 :=
      hne (pc + 1) (Nat.le_add_left 1 pc) (Nat.succ_le_of_lt hpc)
    rw [fetchGo]
    simp only [if_pos hpos]
    by_cases h : pc + 1 < maxPages
    · rw [if_pos h]
      exact ih (pc + 1) (acc ++ pages (pc + 1)) h (by omega)
    · rw [if_neg h]
      omega

theorem fetchGo_upto_empty (pages : Nat → List α) (maxPages : Nat) :
    ∀ (j fuel pc : Nat) (acc : List α),
    (∀ i, pc + 1 ≤ i → i ≤ pc + j → (pages i).length > 0) →
    pages (pc + j + 1) = [] →
    pc + j + 1 ≤ maxPages →
    j + 1 ≤ fuel →
    fetchGo pages maxPages fuel pc acc
      = (acc ++ ((List.range' (pc + 1) j).map pages).flatten, pc + j + 1) := by
  intro j
  induction j with
  | zero =>
    intro fuel pc acc _ hempty _ hfuel
    obtain ⟨f, rfl⟩ : ∃ f, fuel = f + 1 :=
      ⟨fuel - 1, (Nat.succ_pred_eq_of_pos hfuel).symm⟩
    rw [fetchGo]
    simp only [Nat.add_zero] at hempty
    simp [hempty]
  | succ j ih =>
    intro fuel pc acc hok hempty hbound hfuel
    obtain ⟨f, rfl⟩ : ∃ f, fuel = f + 1 :=
      ⟨fuel - 1, (Nat.succ_pred_eq_of_pos (Nat.lt_of_lt_of_le (Nat.succ_pos _) hfuel)).symm⟩
    have hpos : (pages (pc + 1)).length > 0 :=
      hok (pc + 1) (Nat.le_refl _) (by omega)
    have hlt : pc + 1 < maxPages := by omega
    rw [fetchGo]
    simp only [if_pos hpos, if_pos hlt]
    rw [ih f (pc + 1) (acc ++ pages (pc + 1))
      (fun i h1 h2 => hok i (by omega) (by omega))
      (by rw [show pc + 1 + j + 1 = pc + (j + 1) + 1 by omega]; exact hempty)
      (by omega) (by omega)]
    rw [List.range'_succ, List.map_cons, List.flatten_cons, List.append_assoc]
    congr 2
    omega

/-- C3 counterexample: the Apple fetch loop does not implement the claimed
consecutive-empty-pages counter, and a short page does not end pagination.
With page 1 empty and every later page non-empty, the loop stops after a
single iteration having kept nothing (the claim would have it continue
until two consecutive empty pages); with a full first page and an empty
second page, it stops right after the first empty page, keeping page 1 and
never reaching the non-empty page 3; and with every page a single record
(fewer than the 50-record exhaustion threshold), the loop does not stop
after the first short page but runs all `maxPages = 3` iterations. -/
theorem fetch_loop_differs_from_claim :
    fetchGo (fun i => if i = 1 then ([] : List Nat) else [7]) 3 3 0 [] = ([], 1) ∧
    fetchGo (fun i => if i = 2 then ([] : List Nat) else List.replicate 60 7) 5 5 0 []
      = (List.replicate 60 7, 2) ∧
    fetchGo (fun _ => [7]) 3 3 0 [] = ([7, 7, 7], 3) := by
  refine ⟨rfl, rfl, rfl⟩

/-- C3 (amended): the fetch loop always terminates; for a provider whose
pages are all non-empty it runs exactly `max_pages` iterations (no
partial-page truncation — every fetched page is kept); and it stops
immediately after the first empty page: when pages 1..j are non-empty and
page j+1 is empty (within the page ceiling), the loop performs exactly
j+1 iterations and returns the concatenation of pages 1..j — in particular
an empty very first page (j = 0) ends the loop at once with nothing kept.
There is no consecutive-empty-pages counter and a non-empty page shorter
than the 50-record threshold does not end pagination. -/
theorem fetch_loop_termination (pages : Nat → List α) (maxPages : Nat)
    (hmax : 1 ≤ maxPages) :
    ((∀ i, 1 ≤ i → i ≤ maxPages → (pages i).length > 0) →
      (fetchGo pages maxPages maxPages 0 []).2 = maxPages) ∧
    (pages 1 = [] → fetchGo pages maxPages maxPages 0 [] = ([], 1)) ∧
    (∀ j, (∀ i, 1 ≤ i → i ≤ j → (pages i).length > 0) →
      pages (j + 1) = [] → j + 1 ≤ maxPages →
      fetchGo pages maxPages maxPages 0 []
        = (((List.range' 1 j).map pages).flatten, j + 1)) := by
  refine ⟨?_, ?_, ?_⟩
  · intro hne
    exact fetchGo_const_nonempty pages maxPages hne maxPages 0 [] hmax (by omega)
  · intro hempty
    obtain ⟨f, rfl⟩ : ∃ f, maxPages = f + 1 := ⟨maxPages - 1, by omega⟩
    rw [fetchGo]
    simp [hempty]
  · intro j hne hempty hbound
    have h := fetchGo_upto_empty pages maxPages j maxPages 0 []
      (fun i h1 h2 => hne i h1 (by omega))
      (by simpa using hempty) (by omega) (by omega)
    simpa using h

/-- C3 witness: at `maxPages = 3`, a provider with constant 60-record pages
makes the loop run exactly 3 iterations; a provider whose first page is
empty stops it after one iteration with nothing kept; and a provider with
two full pages followed by an empty third page stops it after 3 iterations
keeping exactly pages 1 and 2, at `maxPages = 5`. -/
theorem fetch_loop_termination_witness :
    ((fetchGo (fun _ => List.replicate 60 (0 : Nat)) 3 3 0 []).2 = 3) ∧
    (fetchGo (fun _ => ([] : List Nat)) 3 3 0 [] = ([], 1)) ∧
    (fetchGo (fun i => if i ≤ 2 then [9, 9] else ([] : List Nat)) 5 5 0 []
      = ([9, 9, 9, 9], 3)) := by
  refine ⟨?_, ?_, ?_⟩
  · exact (fetch_loop_termination (fun _ => List.replicate 60 (0 : Nat)) 3
      (by decide)).1 (fun i _ _ => by simp)
  · exact (fetch_loop_termination (fun _ => ([] : List Nat)) 3 (by decide)).2.1 rfl
  · have h := (fetch_loop_termination (fun i => if i ≤ 2 then [9, 9] else ([] : List Nat))
      5 (by decide)).2.2 2
      (fun i h1 h2 => by
        rw [if_pos h2]
        decide)
      (by decide) (by decide)
    simpa using h

/-- A raw Apple App Store review as used by the canonical JSON mapping
(lines 102-127): absent string fields are `""`, absent numeric fields are
`none`; `score` may hold any number the provider sent — the script does
not validate it. -/
structure AReview where
  userName : String
  score : Option Int
  text : String
  title : String
  dateStr : String
  helpfulCount : Option Int
  version : String
deriving DecidableEq, Repr

/-- The canonical JSON object of the Apple scraper (lines 116-126), minus
the run-dependent random `id`. -/
structure ACanon where
  author : String
  rating : Option Int
  review : String
  title : String
  date : String
  helpful : Int
  version : String
  platform : String
deriving DecidableEq, Repr

/-- JavaScript `x || y` on an optional number: `none` and `some 0` (and
`NaN`, not modelled) are falsy. -/
def jsNumOr (x : Option Int) (dflt : Option Int) : Option Int :=
  match x with
  | some v => if v = 0 then dflt else some v
  | none => dflt

/-- The per-review canonical JSON mapping (lines 116-126):
`rating: r.score || null` — the raw score is copied unvalidated whenever
it is present and non-zero. -/
def aJsonObj (r : AReview) : ACanon :=
  { author := if r.userName = "" then "Anonymous" else r.userName
    rating := jsNumOr r.score none
    review := r.text
    title := r.title
    date := r.dateStr
    helpful := (jsNumOr r.helpfulCount (some 0)).getD 0
    version := r.version
    platform := "app_store" }

/-- `jsonData = allReviews.map(...)` (line 102). -/
def jsonData (reviews : List AReview) : List ACanon :=
  reviews.map aJsonObj

/-- A review carrying a raw score of 6, as a provider glitch could send. -/
def sixStar : AReview :=
  ⟨"Mallory", some 6, "Amazing", "", "2024-03-03", none, "1.0"⟩

/-- C4 counterexample: the canonical mapping performs no range validation.
A raw score of 6 is copied into `rating` unchanged, so the produced
canonical record violates `rating ∈ {null} ∪ [1,5]` — the claim that a
non-integer-or-out-of-range score becomes null is false. -/
theorem rating_not_validated :
    (jsonData [sixStar]).map ACanon.rating = [some 6] ∧
    ¬ (∀ c ∈ jsonData [sixStar],
        c.rating = none ∨ ∃ v, c.rating = some v ∧ 1 ≤ v ∧ v ≤ 5) := by
  constructor
  · rfl
  · intro h
    rcases h (aJsonObj sixStar) (List.mem_map_of_mem _ (List.mem_singleton_self _)) with
      hnone | ⟨v, hv, h1, h5⟩
    · simp [aJsonObj, jsNumOr, sixStar] at hnone
    · simp only [aJsonObj, jsNumOr, sixStar] at hv
      norm_num at hv
      omega

/-- C4 (amended): the canonical `rating` is `null` exactly when the raw
score is absent or zero, and otherwise equals the raw score unvalidated;
consequently every produced record satisfies `rating ∈ {null} ∪ [1,5]`
provided every present raw score of the run lies in [1,5] (zero scores
become null). -/
theorem rating_copied_unvalidated (reviews : List AReview)
    (hin : ∀ r ∈ reviews, ∀ v, r.score = some v → v = 0 ∨ (1 ≤ v ∧ v ≤ 5)) :
    (∀ r ∈ reviews, (aJsonObj r).rating
        = match r.score with
          | some v => if v = 0 then none else some v
          | none => none) ∧
    (∀ c ∈ jsonData reviews,
        c.rating = none ∨ ∃ v, c.rating = some v ∧ 1 ≤ v ∧ v ≤ 5) := by
  constructor
  · intro r _
    rfl
  · intro c hc
    rcases List.mem_map.mp hc with ⟨r, hr, rfl⟩
    rcases hscore : r.score with _ | v
    · left
      simp [aJsonObj, jsNumOr, hscore]
    · rcases hin r hr v hscore with h0 | h15
      · left
        simp [aJsonObj, jsNumOr, hscore, h0]
      · right
        refine ⟨v, ?_, h15.1, h15.2⟩
        have hv0 : ¬ v = 0 := by omega
        simp [aJsonObj, jsNumOr, hscore, hv0]

/-- An in-range review for the C4 witness. -/
def fourStar : AReview :=
  ⟨"Ned", some 4, "Good", "t", "2024-04-04", some 2, "1.1"⟩

/-- A review with a zero (falsy) score for the C4 witness. -/
def zeroStar : AReview :=
  ⟨"Olga", some 0, "meh", "", "2024-04-05", none, "1.1"⟩

/-- C4 witness: on a run whose raw scores are 4 and 0, every canonical
rating is null or in [1,5], and the ratings evaluate to `[some 4, none]`. -/
theorem rating_copied_unvalidated_witness :
    (∀ c ∈ jsonData [fourStar, zeroStar],
        c.rating = none ∨ ∃ v, c.rating = some v ∧ 1 ≤ v ∧ v ≤ 5) ∧
    (jsonData [fourStar, zeroStar]).map ACanon.rating = [some 4, none] := by
  refine ⟨(rating_copied_unvalidated [fourStar, zeroStar] ?_).2, by decide⟩
  intro r hr v hv
  rcases List.mem_cons.mp hr with rfl | hr
  · right
    simp only [fourStar] at hv
    injection hv with h
    omega
  · rcases List.mem_singleton.mp hr with rfl
    left
    simp only [zeroStar] at hv
    injection hv with h
    omega

/-- The file system as a list of (filename, contents) pairs appended in
write order. -/
abbrev FS := List (String × String)

/-- `fs.writeFileSync(name, content)`: appends the file, or throws (modelled
by `.error`) when the storage layer fails for that filename. -/
def writeFileSync (failing : List String) (name content : String) (fs : FS) :
    Except Unit FS :=
  if name ∈ failing then .error () else .ok (fs ++ [(name, content)])

/-- The save phase of `scrapeAllReviews` (lines 96-131): the CSV write and
then the JSON write run sequentially inside the function's single
`try`/`catch`, so a thrown CSV write transfers control to the `catch` and
the JSON write is never reached.  Returns the resulting file system and
whether the JSON write was attempted. -/
def savePhase (failing : List String) (csvName csvContent jsonName jsonContent : String)
    (fs0 : FS) : FS × Bool :=
  match writeFileSync failing csvName csvContent fs0 with
  | .error _ => (fs0, false)
  | .ok fs1 =>
    match writeFileSync failing jsonName jsonContent fs1 with
    | .error _ => (fs1, true)
    | .ok fs2 => (fs2, true)

/-- C8 counterexample: when the CSV write fails, the JSON write is not
attempted — the single `try`/`catch` around the whole scrape makes the
CSV failure skip straight to the error handler, leaving no file written,
contrary to the claim that the second representation is still attempted. -/
theorem json_write_skipped_after_csv_failure :
    savePhase ["out.csv"] "out.csv" "csv-data" "out.json" "json-data" []
      = ([], false) := by
  rfl

/-- C8 (amended): the JSON write is attempted exactly when the CSV write
succeeds.  When the CSV write fails nothing is written and the JSON write
is skipped; when the CSV write succeeds the CSV file is on disk and the
JSON write is attempted, and a JSON failure still leaves the CSV file
written. -/
theorem json_write_iff_csv_success (failing : List String)
    (csvName csvContent jsonName jsonContent : String) (fs0 : FS) :
    ((savePhase failing csvName csvContent jsonName jsonContent fs0).2
        = (csvName ∉ failing : Bool)) ∧
    (csvName ∈ failing →
      savePhase failing csvName csvContent jsonName jsonContent fs0 = (fs0, false)) ∧
    (csvName ∉ failing → jsonName ∈ failing →
      savePhase failing csvName csvContent jsonName jsonContent fs0
        = (fs0 ++ [(csvName, csvContent)], true)) ∧
    (csvName ∉ failing → jsonName ∉ failing →
      savePhase failing csvName csvContent jsonName jsonContent fs0
        = (fs0 ++ [(csvName, csvContent), (jsonName, jsonContent)], true)) := by
  refine ⟨?_, ?_, ?_, ?_⟩
  · by_cases h : csvName ∈ failing
    · simp [savePhase, writeFileSync, h]
    · by_cases h2 : jsonName ∈ failing <;>
        simp [savePhase, writeFileSync, h, h2]
  · intro h
    simp [savePhase, writeFileSync, h]
  · intro h h2
    simp [savePhase, writeFileSync, h, h2]
  · intro h h2
    simp [savePhase, writeFileSync, h, h2]

/-- C8 witness: with only the JSON write failing, the CSV file is written
and the JSON write is attempted; instantiates the amended theorem at
concrete filenames. -/
theorem json_write_iff_csv_success_witness :
    savePhase ["a.json"] "a.csv" "c" "a.json" "j" []
      = ([("a.csv", "c")], true) := by
  have h := (json_write_iff_csv_success ["a.json"] "a.csv" "c" "a.json" "j" []).2.2.1
    (by decide) (by decide)
  simpa using h

end AppleAppStore

namespace Zendesk

/-- The runtime fate of a `created_at` string under JavaScript's
`new Date`: either it parses to a valid date whose ISO day is `isoDay`
(what `.toISOString().split('T')[0]` yields), or it parses to an
`Invalid Date`, on which `.toISOString()` throws a `RangeError`.  Every
string falls into exactly one of the two classes at runtime; the class is
carried here as data since the engine's parsing grammar is opaque. -/
inductive JSDate where
  | valid (isoDay : String)
  | invalid (raw : String)
deriving DecidableEq, Repr

/-- A raw Zendesk ticket, with the fields the scraper reads.  String fields
use `""` for an absent value (indistinguishable from `undefined` in every
use the script makes), numeric `requester_id` uses `none`/`some 0` for the
falsy cases, and `tags` defaults to `[]`. -/
structure Ticket where
  id : Nat
  subject : String
  description : String
  status : String
  priority : String
  tags : List String
  created_at : Option JSDate
  requester_id : Option Nat
deriving DecidableEq, Repr

/-- One entry of the satisfaction-ratings feed: `ticket_id` (`0` is falsy
and skipped when the map is built) and the `score` string. -/
structure SatRating where
  ticket_id : Nat
  score : String
deriving DecidableEq, Repr

/-- The `ratingsMap` built at lines 313-318: `forEach` assignment keyed by
`ticket_id`, so for duplicated ids the last entry wins; entries with a
falsy `ticket_id` are never stored. -/
def ratingsLookup (sats : List SatRating) (tid : Nat) : Option SatRating :=
  (sats.filter (fun s => s.ticket_id != 0 && s.ticket_id == tid)).getLast?

/-- The status/priority heuristic of `ticketToRating` (lines 265-283):
base 3, adjusted by status then by priority, clamped to [1,5]. -/
def heuristicRating (t : Ticket) : Option Int :=
  let r1 : Int := 3
  let r2 :=
    if t.status = "solved" ∨ t.status = "closed" then r1 + 1
    else if t.status = "open" ∨ t.status = "pending" then r1 - 1
    else r1
  let r3 :=
    if t.priority = "urgent" ∨ t.priority = "high" then r2 - 1
    else if t.priority = "low" then r2 + 1
    else r2
  some (max 1 (min 5 r3))

/-- `ticketToRating` (lines 251-284): a truthy explicit satisfaction score
is consulted first (`offered`/`unoffered`/`received` → null, `good` → 5,
`bad` → 1); any other truthy score, a falsy score, or no joined rating
falls through to the status/priority heuristic. -/
def ticketToRating (sat : Option SatRating) (t : Ticket) : Option Int :=
  match sat with
  | some s =>
    if s.score ≠ "" then
      if s.score = "offered" then none
      else if s.score = "unoffered" then none
      else if s.score = "received" then none
      else if s.score = "good" then some 5
      else if s.score = "bad" then some 1
      else heuristicRating t
    else heuristicRating t
  | none => heuristicRating t

/-- `extractTicketText` (lines 287-306): subject, then description when
present and different from the subject (joined with ". " when a subject
preceded), then the tags as a bracketed suffix, with a fixed fallback when
everything is empty. -/
def extractTicketText (t : Ticket) : String :=
  let text1 := if t.subject ≠ "" then t.subject else ""
  let text2 :=
    if t.description ≠ "" ∧ t.description ≠ t.subject then
      if text1 ≠ "" then text1 ++ ". " ++ t.description else text1 ++ t.description
    else text1
  let text3 :=
    if t.tags.length > 0 then
      text2 ++ " [Tags: " ++ String.intercalate ", " t.tags ++ "]"
    else text2
  if text3 ≠ "" then text3 else "No description available"

/-- The rating computed per converted ticket (lines 331-340):
`ticketToRating` on the ticket joined with its satisfaction entry, then the
redundant override that re-applies `good` → 5 / `bad` → 1 whenever a
satisfaction entry exists. -/
def reviewRating (sats : List SatRating) (t : Ticket) : Option Int :=
  let satisfaction := ratingsLookup sats t.id
  let r := ticketToRating satisfaction t
  match satisfaction with
  | some s =>
    if s.score = "good" then some 5
    else if s.score = "bad" then some 1
    else r
  | none => r

/-- The date conversion at lines 325-328:
`new Date(created_at).toISOString().split('T')[0]` guarded only by
truthiness of `created_at` — a present but malformed date string makes
`.toISOString()` throw. -/
def ticketDate : Option JSDate → Except String String
  | none => .ok ""
  | some (.valid d) => .ok d
  | some (.invalid _) => .error "RangeError: Invalid time value"

/-- The canonical record one ticket converts to (lines 342-356), minus the
run-dependent random suffix of `id`. -/
structure ZReview where
  author : String
  rating : Option Int
  review : String
  title : String
  date : String
  helpful : Int
  platform : String
  ticket_id : Nat
  status : String
  priority : String
  satisfaction_score : Option String
  tags : List String
deriving DecidableEq, Repr

/-- Conversion of one ticket (the body of the `tickets.map` at lines
320-357); a thrown date error aborts the whole map, so the result is in
`Except`. -/
def convertTicket (sats : List SatRating) (t : Ticket) : Except String ZReview :=
  let satisfaction := ratingsLookup sats t.id
  match ticketDate t.created_at with
  | .error e => .error e
  | .ok date => .ok
    { author :=
        match t.requester_id with
        | some rid => if rid = 0 then "Anonymous" else "User " ++ toString rid
        | none => "Anonymous"
      rating := reviewRating sats t
      review := extractTicketText t
      title := t.subject
      date := date
      helpful := 0
      platform := "zendesk"
      ticket_id := t.id
      status := t.status
      priority := t.priority
      satisfaction_score :=
        match satisfaction with
        | some s => some s.score
        | none => none
      tags := t.tags }

/-- `convertTicketsToReviews(tickets, satisfactionRatings)` (lines
309-361): the sequential `tickets.map`, where the first thrown error
aborts the conversion. -/
def convertTicketsToReviews (sats : List SatRating) :
    List Ticket → Except String (List ZReview)
  | [] => .ok []
  | t :: rest => do
    let r ← convertTicket sats t
    let rs ← convertTicketsToReviews sats rest
    pure (r :: rs)

/-- C2: for a ticket with no joined satisfaction entry the derived rating
is base 3, +1 for status solved/closed, −1 for status open/pending, −1 for
priority urgent/high, +1 for priority low, clamped to [1,5]; an explicit
`good` score yields 5 and `bad` yields 1; and a solved/low ticket with no
satisfaction signal rates 5. -/
theorem ticket_rating_derivation (sats : List SatRating) (t : Ticket) :
    (ratingsLookup sats t.id = none →
      reviewRating sats t = some (max 1 (min 5 ((3 : Int)
        + (if t.status = "solved" ∨ t.status = "closed" then 1
           else if t.status = "open" ∨ t.status = "pending" then -1 else 0)
        + (if t.priority = "urgent" ∨ t.priority = "high" then -1
           else if t.priority = "low" then 1 else 0))))) ∧
    (∀ s, ratingsLookup sats t.id = some s → s.score = "good" →
      reviewRating sats t = some 5) ∧
    (∀ s, ratingsLookup sats t.id = some s → s.score = "bad" →
      reviewRating sats t = some 1) ∧
    (ratingsLookup sats t.id = none → t.status = "solved" → t.priority = "low" →
      reviewRating sats t = some 5) := by
  refine ⟨?_, ?_, ?_, ?_⟩
  · intro hnone
    simp only [reviewRating, ticketToRating, heuristicRating, hnone]
    split_ifs <;> norm_num
  · intro s hs hgood
    simp [reviewRating, hs, hgood]
  · intro s hs hbad
    simp [reviewRating, hs, hbad]
  · intro hnone hst hpr
    simp only [reviewRating, ticketToRating, heuristicRating, hnone, hst, hpr]
    norm_num
    decide

/-- A solved, low-priority ticket with no satisfaction signal. -/
def solvedLowTicket : Ticket :=
  ⟨101, "Thanks", "All good now", "solved", "low", [], none, some 7⟩

/-- C2 witness: with an empty satisfaction feed, the solved/low ticket is
rated 5, by the derivation theorem instantiated concretely. -/
theorem ticket_rating_derivation_witness :
    ratingsLookup [] solvedLowTicket.id = none ∧
    reviewRating [] solvedLowTicket = some 5 := by
  refine ⟨rfl, ?_⟩
  exact (ticket_rating_derivation [] solvedLowTicket).2.2.2 rfl rfl rfl

theorem str_eq_empty_of_length {s : String} (h : s.length = 0) : s = "" := by
  cases s with
  | mk data =>
    have hdata : data.length = 0 := by simpa [String.length] using h
    rw [List.eq_nil_of_length_eq_zero hdata]

theorem str_append_ne_right (a : String) {b : String} (h : b ≠ "") :
    a ++ b ≠ "" := by
  intro hc
  have hlen := congrArg String.length hc
  rw [String.length_append] at hlen
  simp only [String.length_empty] at hlen
  exact h (str_eq_empty_of_length (by omega))

theorem convertTicket_ok (sats : List SatRating) (t : Ticket)
    (h : ∀ d, t.created_at = some d → ∃ s, d = JSDate.valid s) :
    ∃ r, convertTicket sats t = .ok r := by
  cases hres : convertTicket sats t with
  | ok r => exact ⟨r, rfl⟩
  | error e =>
    exfalso
    rcases hd : t.created_at with _ | d
    · simp [convertTicket, hd, ticketDate] at hres
    · rcases d with s | raw
      · simp [convertTicket, hd, ticketDate] at hres
      · obtain ⟨s, hs⟩ := h _ hd
        cases hs

/-- A ticket whose `created_at` is present but unparseable: `new Date`
yields `Invalid Date` and `.toISOString()` throws. -/
def badDateTicket : Ticket :=
  ⟨42, "Help", "Broken", "open", "high", [], some (JSDate.invalid "garbage"), some 9⟩

/-- C6 counterexample: normalization is not total on malformed fields — a
ticket whose `created_at` is present but malformed makes the conversion
raise (`.toISOString()` on an `Invalid Date` throws a `RangeError`),
aborting the ticket map instead of defaulting the field. -/
theorem normalize_raises_on_malformed_date :
    convertTicketsToReviews [] [badDateTicket]
      = .error "RangeError: Invalid time value" := by
  rfl

/-- C6 (amended): normalization is total for every combination of missing
fields — as long as each ticket's `created_at` is absent or a parseable
date, the conversion never fails and yields one canonical record per
ticket, with missing fields defaulted ("" / 0 / null / "Anonymous"); only
a present, malformed `created_at` raises. -/
theorem normalize_total_on_missing (sats : List SatRating) (tickets : List Ticket)
    (hdate : ∀ t ∈ tickets, ∀ d, t.created_at = some d → ∃ s, d = JSDate.valid s) :
    ∃ revs, convertTicketsToReviews sats tickets = .ok revs
      ∧ revs.length = tickets.length := by
  induction tickets with
  | nil => exact ⟨[], rfl, rfl⟩
  | cons t rest ih =>
    obtain ⟨r, hr⟩ := convertTicket_ok sats t (hdate t (List.mem_cons_self _ _))
    obtain ⟨rs, hrs, hlen⟩ := ih (fun t' ht' => hdate t' (List.mem_cons_of_mem _ ht'))
    refine ⟨r :: rs, ?_, by simp [hlen]⟩
    show convertTicketsToReviews sats (t :: rest) = .ok (r :: rs)
    simp only [convertTicketsToReviews, hr, hrs]
    rfl

/-- A ticket with every field missing or defaulted. -/
def emptyTicket : Ticket :=
  ⟨1, "", "", "", "", [], none, none⟩

/-- C6 witness: the all-defaults ticket converts without error, by the
totality theorem, and the record carries the type-appropriate defaults:
author "Anonymous", neutral rating 3, fallback body, empty title and date,
zero helpful count, no satisfaction score, no tags. -/
theorem normalize_total_on_missing_witness :
    (∃ revs, convertTicketsToReviews [] [emptyTicket] = .ok revs
      ∧ revs.length = 1) ∧
    convertTicketsToReviews [] [emptyTicket]
      = .ok [⟨"Anonymous", some 3, "No description available", "", "", 0,
              "zendesk", 1, "", "", none, []⟩] := by
  constructor
  · exact normalize_total_on_missing [] [emptyTicket]
      (by intro t ht d hd
          rcases List.mem_singleton.mp ht with rfl
          simp [emptyTicket] at hd)
  · rfl

/-- A ticket with subject, a different description, and two tags. -/
def bugTicket : Ticket :=
  ⟨7, "Bug", "It crashes", "open", "", ["ios", "crash"], none, some 3⟩

/-- C9: the canonical body text concatenates subject and description when
both are present and differ (joined by ". "), with present tags appended
as a bracketed suffix and, for a tagless ticket, no suffix at all (so
structured ancillary data is appended exactly when present, not dropped),
and is never empty — a ticket with no subject and no description still
yields the fallback body. -/
theorem ticket_body_text (t : Ticket) :
    (t.subject ≠ "" → t.description ≠ "" → t.description ≠ t.subject →
      t.tags ≠ [] →
      extractTicketText t
        = t.subject ++ ". " ++ t.description
          ++ " [Tags: " ++ String.intercalate ", " t.tags ++ "]") ∧
    (t.subject ≠ "" → t.description ≠ "" → t.description ≠ t.subject →
      t.tags = [] →
      extractTicketText t = t.subject ++ ". " ++ t.description) ∧
    (t.tags ≠ [] →
      ∃ pre, extractTicketText t
        = pre ++ " [Tags: " ++ String.intercalate ", " t.tags ++ "]") ∧
    extractTicketText t ≠ "" := by
  refine ⟨?_, ?_, ?_, ?_⟩
  · intro hs hd hne htags
    have hlen : t.tags.length > 0 := List.length_pos.mpr htags
    have hcond : t.description ≠ "" ∧ t.description ≠ t.subject := ⟨hd, hne⟩
    have hfull : t.subject ++ ". " ++ t.description ++ " [Tags: "
        ++ String.intercalate ", " t.tags ++ "]" ≠ "" :=
      str_append_ne_right _ (by decide)
    simp only [extractTicketText, if_pos hs, if_pos hcond, if_pos hlen,
      if_pos hfull]
  · intro hs hd hne htags
    have hlen : ¬ (t.tags.length > 0) := by simp [htags]
    have hcond : t.description ≠ "" ∧ t.description ≠ t.subject := ⟨hd, hne⟩
    have hfull : t.subject ++ ". " ++ t.description ≠ "" :=
      str_append_ne_right _ hd
    simp only [extractTicketText, if_pos hs, if_pos hcond, if_neg hlen,
      if_pos hfull]
  · intro htags
    have hlen : t.tags.length > 0 := List.length_pos.mpr htags
    simp only [extractTicketText, if_pos hlen]
    rw [if_pos (str_append_ne_right _ (by decide : ("]" : String) ≠ ""))]
    exact ⟨_, rfl⟩
  · simp only [extractTicketText]
    split_ifs <;> first | assumption | decide

/-- The same ticket as `bugTicket` but with no tags. -/
def bugTicketNoTags : Ticket :=
  ⟨8, "Bug", "It crashes", "open", "", [], none, some 3⟩

/-- C9 witness: the body text of a concrete ticket with subject "Bug",
description "It crashes" and tags ["ios", "crash"], the plain
subject-description concatenation of the same ticket without tags, and the
fallback body of the all-empty ticket, all via the body-text theorem. -/
theorem ticket_body_text_witness :
    extractTicketText bugTicket = "Bug. It crashes [Tags: ios, crash]" ∧
    extractTicketText bugTicketNoTags = "Bug. It crashes" ∧
    extractTicketText emptyTicket = "No description available" := by
  refine ⟨?_, ?_, rfl⟩
  · have h := (ticket_body_text bugTicket).1
      (by decide) (by decide) (by decide) (by decide)
    rw [h]
    rfl
  · have h := (ticket_body_text bugTicketNoTags).2.1
      (by decide) (by decide) (by decide) rfl
    rw [h]
    rfl

end Zendesk
